import Mathlib

/-!
Verification of the ParenInc/openinghours interval codec.

Shallow embedding of the Go package `openinghours` (file `openinghours.go`,
variant with `OpeningHoursSliceToString` / `GetHumanReadableTimes` taking
`[]OpeningHours` / `GetOCPIOpeningTimes`).

Modelling conventions:

* Go strings are modelled as `List Char` (all data handled by the package is
  ASCII); `chars` converts a Lean string literal to that representation.
* Functions returning `(T, error)` are modelled as `Except (List Char) T`,
  the error being exactly the message built by `fmt.Errorf` (the Go code
  always returns the zero value alongside an error, so no partial result is
  ever carried with an error).
* Go `int` is modelled as `Int`; `/` and `%` on Go ints are truncated
  division, i.e. `Int.tdiv` / `Int.tmod`.
* `strconv.Atoi` is modelled by `atoi` (optional sign followed by one or more
  ASCII digits; the int64 overflow check is irrelevant here because every use
  is on a capture of at most two digits).
* The regular expression `^W(\d)T(\d{2}):(\d{2}):\d{2}$` is modelled by
  `matchTimeInWeekRe`, returning the three capture groups.
* `GetHumanReadableTimes` and `GetOCPIOpeningTimes` copy each slice element
  into a loop variable `oh`, but `oh.Open` / `oh.Close` are pointers into the
  caller's `TimeInWeek` values, so the in-place updates
  (`setPreviousDay(&oh.Close.Weekday)`, `oh.Close.MinutesSinceMidnight = 1440`,
  `setNextDay(&oh.Open.Weekday)`) write through to the caller.  The embedding
  therefore returns, next to the computed result, the final values of the
  caller-visible `TimeInWeek` cells of every entry (assuming the entries do
  not alias one another).  A nil-pointer dereference (an entry with an absent
  endpoint reaching the loops) and a diverging day loop are modelled as
  `Option.none`.
* The unbounded `for oh.Open.Weekday != oh.Close.Weekday` loops are modelled
  with fuel 7 (`walk`); sufficiency of that fuel for weekdays in 1..7 is
  proved (`walk_eq_betweenDays`), and exhaustion models divergence.
-/

deriving instance DecidableEq for Except

def chars (s : String) : List Char := s.data

/-- Decimal digits of a natural number, most significant first
(fuel-based so that it reduces in the kernel). -/
def natCharsAux : Nat → Nat → List Char → List Char
  | 0, _, acc => acc
  | fuel+1, n, acc =>
    if n < 10 then Nat.digitChar n :: acc
    else natCharsAux fuel (n / 10) (Nat.digitChar (n % 10) :: acc)

def natChars (n : Nat) : List Char := natCharsAux (n + 1) n []

/-- Model of `fmt.Sprintf("%d", i)` for a Go `int`. -/
def intChars (i : Int) : List Char :=
  if i < 0 then '-' :: natChars (-i).toNat else natChars i.toNat

/-- Model of `fmt.Sprintf("%02d", i)`: zero-pad to width 2. -/
def pad2 (i : Int) : List Char :=
  let s := intChars i
  if s.length < 2 then '0' :: s else s

/-- Struct `TimeInWeek` (openinghours.go): a time within the week. -/
structure TimeInWeek where
  Weekday : Int
  MinutesSinceMidnight : Int
  deriving DecidableEq

/-- Struct `OpeningHours` (openinghours.go): open/close times; a `nil` pointer
(absent endpoint) is `none`. -/
structure OpeningHours where
  Open : Option TimeInWeek
  Close : Option TimeInWeek
  deriving DecidableEq

/-- Struct `TimeRange` (openinghours.go). -/
structure TimeRange where
  Open : List Char
  Close : List Char
  deriving DecidableEq

/-- Struct `OCPIRegularHours` (openinghours.go). -/
structure OCPIRegularHours where
  Weekday : Int
  PeriodBegin : List Char
  PeriodEnd : List Char
  deriving DecidableEq

/-- Struct `OCPIOpeningTimes` (openinghours.go); the `RegularHours` slice pointer
is `none` when absent. -/
structure OCPIOpeningTimes where
  TwentyFourSeven : Bool
  RegularHours : Option (List OCPIRegularHours)
  deriving DecidableEq

/-- The `W<d>T<HH>:<MM>:00` rendering of one `TimeInWeek`
(`fmt.Sprintf("W%dT%02d:%02d:00", ...)` inside `OpeningHours.String`). -/
def timeInWeekChars (t : TimeInWeek) : List Char :=
  'W' :: (intChars t.Weekday ++
    ('T' :: (pad2 (Int.tdiv t.MinutesSinceMidnight 60) ++
      (':' :: (pad2 (Int.tmod t.MinutesSinceMidnight 60) ++ chars ":00")))))

/-- Method `OpeningHours.String` (openinghours.go): absent endpoints render as the
empty string, the two sides joined by `/`. -/
def OpeningHours.String (oh : OpeningHours) : List Char :=
  (match oh.Open with
    | some t => timeInWeekChars t
    | none => []) ++
  '/' :: (match oh.Close with
    | some t => timeInWeekChars t
    | none => [])

/-- Function `OpeningHoursSliceToString` (openinghours.go): comma-join of the
per-interval strings. -/
def OpeningHoursSliceToString (ohs : List OpeningHours) : List Char :=
  [','].intercalate (ohs.map OpeningHours.String)

/-- Model of `strconv.Atoi`, restricted to what matters here: optional sign then one
or more ASCII digits (the int64 range check never fires on the at most
two-digit captures fed to it in this package). -/
def digitsVal (s : List Char) : Option Nat :=
  if s ≠ [] ∧ s.all Char.isDigit then
    some (s.foldl (fun a c => a * 10 + (c.toNat - '0'.toNat)) 0)
  else none

def atoi (s : List Char) : Option Int :=
  match s with
  | '+' :: rest => (digitsVal rest).map (fun n => (n : Int))
  | '-' :: rest => (digitsVal rest).map (fun n => -(n : Int))
  | _ => (digitsVal s).map (fun n => (n : Int))

/-- Function `parseWeekDay` (openinghours.go): `Atoi`, then 0 unless the value is
in 1..7. -/
def parseWeekDay (v : List Char) : Int :=
  match atoi v with
  | none => 0
  | some i => if i < 1 ∨ 7 < i then 0 else i

/-- Function `ParseMinutesSinceMidnight` (openinghours.go). -/
def ParseMinutesSinceMidnight (v1 v2 : List Char) : Except (List Char) Int :=
  match atoi v1 with
  | none => .error (chars "invalid hours value")
  | some hours =>
    if hours < 0 ∨ 24 < hours then .error (chars "invalid hours value")
    else
      match atoi v2 with
      | none => .error (chars "invalid minutes value")
      | some minutes =>
        if minutes < 0 ∨ 59 < minutes then .error (chars "invalid minutes value")
        else if hours = 24 ∧ minutes ≠ 0 then .error (chars "invalid value")
        else .ok (hours * 60 + minutes)

/-- The regular expression `^W(\d)T(\d{2}):(\d{2}):\d{2}$` of
`parseTimeInWeek`; returns the captured weekday digit, hour digits and
minute digits (`\d` is ASCII `[0-9]` in Go's RE2). -/
def matchTimeInWeekRe (v : List Char) : Option (Char × Char × Char × Char × Char) :=
  match v with
  | ['W', d, 'T', h1, h2, ':', m1, m2, ':', s1, s2] =>
    if d.isDigit && h1.isDigit && h2.isDigit && m1.isDigit && m2.isDigit
        && s1.isDigit && s2.isDigit then
      some (d, h1, h2, m1, m2)
    else none
  | _ => none

/-- Function `parseTimeInWeek` (openinghours.go). -/
def parseTimeInWeek (v : List Char) : Except (List Char) (Option TimeInWeek) :=
  if v = [] then .ok none
  else
    match matchTimeInWeekRe v with
    | none => .error (chars "invalid value `" ++ v ++ chars "`")
    | some (d, h1, h2, m1, m2) =>
      let weekday := parseWeekDay [d]
      if weekday = 0 then
        .error (chars "invalid workday in `" ++ v ++
          chars "`: expected to be between 1 (monday) and 7 (sunday)")
      else
        match ParseMinutesSinceMidnight [h1, h2] [m1, m2] with
        | .error e => .error (chars "invalid time in `" ++ v ++ chars "`: " ++ e)
        | .ok m => .ok (some ⟨weekday, m⟩)

/-- The per-segment loop body of `ParseOpeningHours`: empty segments are
skipped, a segment must split on `/` into exactly two parts, and the first
failing segment aborts the whole call (the Go function returns `nil` next to
the error, so no partial list escapes). -/
def parseSegs : List (List Char) → Except (List Char) (List OpeningHours)
  | [] => .ok []
  | s :: rest =>
    if s = [] then parseSegs rest
    else
      match List.splitOn '/' s with
      | [a, b] =>
        match parseTimeInWeek a with
        | .error e => .error (chars "invalid opening hours: " ++ e)
        | .ok openingHours =>
          match parseTimeInWeek b with
          | .error e => .error (chars "invalid closing hours: " ++ e)
          | .ok closingHours =>
            (parseSegs rest).map (fun l => ⟨openingHours, closingHours⟩ :: l)
      | _ => .error (chars "invalid opening hours string `" ++ s ++ chars "`")

/-- Function `ParseOpeningHours` (openinghours.go): split on `,` and parse each
segment. -/
def ParseOpeningHours (v : List Char) : Except (List Char) (List OpeningHours) :=
  parseSegs (List.splitOn ',' v)

/-- Function `getWeekDay` (openinghours.go). -/
def getWeekDay (weekday : Int) : List Char :=
  if weekday = 1 then chars "monday"
  else if weekday = 2 then chars "tuesday"
  else if weekday = 3 then chars "wednesday"
  else if weekday = 4 then chars "thursday"
  else if weekday = 5 then chars "friday"
  else if weekday = 6 then chars "saturday"
  else if weekday = 7 then chars "sunday"
  else []

/-- Function `minutesSinceMidnightToTime` (openinghours.go). -/
def minutesSinceMidnightToTime (minutesSinceMidnight : Int) : List Char :=
  pad2 (Int.tdiv minutesSinceMidnight 60) ++
    ':' :: pad2 (Int.tmod minutesSinceMidnight 60)

/-- Function `setNextDay` (openinghours.go): the update `*w = *w%7 + 1`, as a pure function on
the pointed-to value. -/
def setNextDay (w : Int) : Int := Int.tmod w 7 + 1

/-- Function `setPreviousDay` (openinghours.go): decrement, wrapping below 1 to 7. -/
def setPreviousDay (w : Int) : Int :=
  if w - 1 < 1 then 7 else w - 1

/-- Function `ParseStringWeekdayToTimeWeekday` (openinghours.go); `strings.ToLower`
is modelled per character (ASCII). -/
def ParseStringWeekdayToTimeWeekday (dayStr : List Char) : Except (List Char) Int :=
  let l := dayStr.map Char.toLower
  if l = chars "monday" ∨ l = chars "mon" then .ok 1
  else if l = chars "tuesday" ∨ l = chars "tue" then .ok 2
  else if l = chars "wednesday" ∨ l = chars "wed" then .ok 3
  else if l = chars "thursday" ∨ l = chars "thu" then .ok 4
  else if l = chars "friday" ∨ l = chars "fri" then .ok 5
  else if l = chars "saturday" ∨ l = chars "sat" then .ok 6
  else if l = chars "sunday" ∨ l = chars "sun" then .ok 7
  else .error (chars "invalid weekday: " ++ dayStr)

/-- One entry of the `isTwentyFourSeven` check: both endpoints present and
exactly Monday 00:00 to Sunday 24:00. -/
def is247Entry (oh : OpeningHours) : Bool :=
  match oh.Open, oh.Close with
  | some o, some c =>
    o.Weekday == 1 && c.Weekday == 7 &&
      o.MinutesSinceMidnight == 0 && c.MinutesSinceMidnight == 1440
  | _, _ => false

/-- Function `isTwentyFourSeven` (openinghours.go). -/
def isTwentyFourSeven (ohs : List OpeningHours) : Bool :=
  if ohs = [] then false else ohs.all is247Entry

/-- Value `TwentyFourSevenOH` (openinghours.go). -/
def TwentyFourSevenOH : OpeningHours :=
  ⟨some ⟨1, 0⟩, some ⟨7, 1440⟩⟩

/-- Value `TwentyFourSevenString` (openinghours.go). -/
def TwentyFourSevenString : List Char := chars "W1T00:00:00/W7T24:00:00"

/-- The `for oh.Open.Weekday != oh.Close.Weekday` loop: collect the weekdays
visited strictly before reaching `target`, advancing with `setNextDay`.
`none` models a loop that does not reach `target` within the fuel
(the Go loop would then never terminate for weekdays in 1..7). -/
def walk : Nat → Int → Int → Option (List Int)
  | 0, w, target => if w = target then some [] else none
  | fuel+1, w, target =>
    if w = target then some []
    else (walk fuel (setNextDay w) target).map (fun l => w :: l)

/-- Lines 154-157 of `GetHumanReadableTimes`: a close at minute 0 becomes
24:00 of the previous weekday (writing through `oh.Close`). -/
def normalizeCloseHR (c : TimeInWeek) : TimeInWeek :=
  if c.MinutesSinceMidnight = 0 then ⟨setPreviousDay c.Weekday, 1440⟩ else c

/-- The per-interval body of `GetHumanReadableTimes` (lines 154-168):
returns the `(weekday name, TimeRange)` pairs appended to the map, in order,
together with the final values of the caller's `Open` and `Close` cells
(the loop advances `oh.Open.Weekday` in place until it equals the close
weekday). -/
def expandIntervalHR (o c : TimeInWeek) :
    Option (List (List Char × TimeRange) × TimeInWeek × TimeInWeek) :=
  let c2 := normalizeCloseHR c
  if o.Weekday = c2.Weekday then
    some ([(getWeekDay o.Weekday,
      ⟨minutesSinceMidnightToTime o.MinutesSinceMidnight,
        minutesSinceMidnightToTime c2.MinutesSinceMidnight⟩)], o, c2)
  else
    match walk 7 (setNextDay o.Weekday) c2.Weekday with
    | none => none
    | some mids =>
      some ((getWeekDay o.Weekday,
          ⟨minutesSinceMidnightToTime o.MinutesSinceMidnight, chars "24:00"⟩) ::
        (mids.map (fun w => (getWeekDay w, ⟨chars "00:00", chars "24:00"⟩)) ++
          [(getWeekDay c2.Weekday,
            ⟨chars "00:00", minutesSinceMidnightToTime c2.MinutesSinceMidnight⟩)]),
        ⟨c2.Weekday, o.MinutesSinceMidnight⟩, c2)

/-- The interval loop of `GetHumanReadableTimes`: emissions of all entries
in order, plus the final caller-visible cells; `none` models a nil-pointer
panic (absent endpoint) or a diverging day loop. -/
def runHR : List OpeningHours →
    Option (List (List Char × TimeRange) × List OpeningHours)
  | [] => some ([], [])
  | oh :: rest =>
    match oh.Open, oh.Close with
    | some o, some c =>
      match expandIntervalHR o c with
      | none => none
      | some (es, o2, c2) =>
        match runHR rest with
        | none => none
        | some (esr, restr) => some (es ++ esr, ⟨some o2, some c2⟩ :: restr)
    | _, _ => none

/-- Function `GetHumanReadableTimes` (openinghours.go).  The Go function returns a
`map[string][]TimeRange`; the embedding returns the append events that build
it (`hrLookup` recovers the per-key lists) together with the final values of
the caller's entries. -/
def GetHumanReadableTimes (ohs : List OpeningHours) :
    Option (List (List Char × TimeRange) × List OpeningHours) :=
  if ohs = [] then some ([], []) else runHR ohs

/-- Lookup in the map built by `addTimeToWeek` from the emission list:
all ranges appended under a key, in order (a missing key reads as `[]`,
like a Go map lookup returning `nil`). -/
def hrLookup (es : List (List Char × TimeRange)) (k : List Char) : List TimeRange :=
  (es.filter (fun e => e.1 = k)).map (fun e => e.2)

/-- The `switch oh.Close.MinutesSinceMidnight` of `GetOCPIOpeningTimes`
(lines 221-226): at minute 0 shift the close weekday back one day; at 1440
rewrite the minute to 0 (OCPI renders end-of-day midnight as "00:00") with
no weekday shift. -/
def normalizeCloseOCPI (c : TimeInWeek) : TimeInWeek :=
  if c.MinutesSinceMidnight = 0 then ⟨setPreviousDay c.Weekday, c.MinutesSinceMidnight⟩
  else if c.MinutesSinceMidnight = 1440 then ⟨c.Weekday, 0⟩
  else c

/-- The per-interval body of `GetOCPIOpeningTimes` (lines 220-255):
the `OCPIRegularHours` entries appended for this interval, in order, plus
the final values of the caller's `Open` and `Close` cells. -/
def expandIntervalOCPI (o c : TimeInWeek) :
    Option (List OCPIRegularHours × TimeInWeek × TimeInWeek) :=
  let c2 := normalizeCloseOCPI c
  if o.Weekday = c2.Weekday then
    some ([⟨o.Weekday, minutesSinceMidnightToTime o.MinutesSinceMidnight,
      minutesSinceMidnightToTime c2.MinutesSinceMidnight⟩], o, c2)
  else
    match walk 7 (setNextDay o.Weekday) c2.Weekday with
    | none => none
    | some mids =>
      some (⟨o.Weekday, minutesSinceMidnightToTime o.MinutesSinceMidnight,
          chars "00:00"⟩ ::
        (mids.map (fun w => ⟨w, chars "00:00", chars "00:00"⟩) ++
          [⟨c2.Weekday, chars "00:00",
            minutesSinceMidnightToTime c2.MinutesSinceMidnight⟩]),
        ⟨c2.Weekday, o.MinutesSinceMidnight⟩, c2)

/-- The interval loop of `GetOCPIOpeningTimes`. -/
def runOCPI : List OpeningHours →
    Option (List OCPIRegularHours × List OpeningHours)
  | [] => some ([], [])
  | oh :: rest =>
    match oh.Open, oh.Close with
    | some o, some c =>
      match expandIntervalOCPI o c with
      | none => none
      | some (es, o2, c2) =>
        match runOCPI rest with
        | none => none
        | some (esr, restr) => some (es ++ esr, ⟨some o2, some c2⟩ :: restr)
    | _, _ => none

/-- Function `GetOCPIOpeningTimes` (openinghours.go), with the final caller-visible
cells; `none` models a nil-pointer panic or a diverging day loop. -/
def GetOCPIOpeningTimes (ohs : List OpeningHours) :
    Option (OCPIOpeningTimes × List OpeningHours) :=
  if isTwentyFourSeven ohs then some (⟨true, none⟩, ohs)
  else
    match runOCPI ohs with
    | none => none
    | some (regularHours, fin) =>
      if regularHours = [] then some (⟨false, none⟩, fin)
      else some (⟨false, some regularHours⟩, fin)

/-! ## Data-model invariants (spec section 3) -/

/-- Weekday in 1..7 and minutes in 0..1440. -/
def ValidTIW (t : TimeInWeek) : Prop :=
  1 ≤ t.Weekday ∧ t.Weekday ≤ 7 ∧
    0 ≤ t.MinutesSinceMidnight ∧ t.MinutesSinceMidnight ≤ 1440

instance (t : TimeInWeek) : Decidable (ValidTIW t) := by
  unfold ValidTIW; infer_instance

def ValidOpt : Option TimeInWeek → Prop
  | none => True
  | some t => ValidTIW t

instance : (o : Option TimeInWeek) → Decidable (ValidOpt o)
  | none => .isTrue trivial
  | some t => inferInstanceAs (Decidable (ValidTIW t))

/-- Both endpoints, when present, satisfy the invariants. -/
def ValidOH (oh : OpeningHours) : Prop :=
  ValidOpt oh.Open ∧ ValidOpt oh.Close

instance (oh : OpeningHours) : Decidable (ValidOH oh) := by
  unfold ValidOH; infer_instance

def ValidSeq (ohs : List OpeningHours) : Prop :=
  ∀ oh ∈ ohs, ValidOH oh

instance (ohs : List OpeningHours) : Decidable (ValidSeq ohs) := by
  unfold ValidSeq; infer_instance

/-- Both endpoints present and valid. -/
def ValidBothOH (oh : OpeningHours) : Prop :=
  ValidOH oh ∧ oh.Open ≠ none ∧ oh.Close ≠ none

instance (oh : OpeningHours) : Decidable (ValidBothOH oh) := by
  unfold ValidBothOH; infer_instance

def ValidBothSeq (ohs : List OpeningHours) : Prop :=
  ∀ oh ∈ ohs, ValidBothOH oh

instance (ohs : List OpeningHours) : Decidable (ValidBothSeq ohs) := by
  unfold ValidBothSeq; infer_instance

/-! ## Spec-side definitions -/

/-- Number of forward cyclic steps from weekday `a` to weekday `b`
(0..6 for weekdays in 1..7). -/
def cycSteps (a b : Int) : Nat :=
  (Int.tmod (Int.tmod (b - a) 7 + 7) 7).toNat

/-- Modelled from the spec: the weekdays strictly between `a` and `b`
"walking forward cyclically (wrap 7 to 1)". -/
def betweenDays (a b : Int) : List Int :=
  (List.range (cycSteps a b)).tail.map (fun k => setNextDay^[k] a)

/-- Modelled from the spec: full lowercase English weekday names, Monday=1. -/
def weekdayFullName (k : Int) : List Char :=
  if k = 1 then chars "monday"
  else if k = 2 then chars "tuesday"
  else if k = 3 then chars "wednesday"
  else if k = 4 then chars "thursday"
  else if k = 5 then chars "friday"
  else if k = 6 then chars "saturday"
  else if k = 7 then chars "sunday"
  else []

/-- Modelled from the spec: standard three-letter weekday abbreviations. -/
def weekdayAbbrev (k : Int) : List Char :=
  if k = 1 then chars "mon"
  else if k = 2 then chars "tue"
  else if k = 3 then chars "wed"
  else if k = 4 then chars "thu"
  else if k = 5 then chars "fri"
  else if k = 6 then chars "sat"
  else if k = 7 then chars "sun"
  else []



theorem wd_fact : ∀ a : Nat, a < 7 →
    parseWeekDay (intChars ((a : Int) + 1)) = (a : Int) + 1 ∧
    (intChars ((a : Int) + 1)).length = 1 ∧
    (intChars ((a : Int) + 1)).all Char.isDigit = true := by decide

theorem pad2_fact : ∀ h : Nat, h < 60 →
    (pad2 (h : Int)).length = 2 ∧ (pad2 (h : Int)).all Char.isDigit = true ∧
    atoi (pad2 (h : Int)) = some (h : Int) := by decide

theorem isDigit_ne {c : Char} (h : c.isDigit = true) : c ≠ '/' ∧ c ≠ ',' :=
  ⟨fun e => by subst e; exact absurd h (by decide),
   fun e => by subst e; exact absurd h (by decide)⟩

theorem tiw_roundtrip (w m : Int) (hw1 : 1 ≤ w) (hw7 : w ≤ 7)
    (hm0 : 0 ≤ m) (hm : m ≤ 1440) :
    parseTimeInWeek (timeInWeekChars ⟨w, m⟩) = .ok (some ⟨w, m⟩) ∧
    '/' ∉ timeInWeekChars ⟨w, m⟩ ∧ ',' ∉ timeInWeekChars ⟨w, m⟩ := by
  have hdiv : Int.tdiv m 60 = m / 60 := Int.tdiv_eq_ediv hm0 (by norm_num)
  have hmod : Int.tmod m 60 = m % 60 := Int.tmod_eq_emod hm0 (by norm_num)
  -- weekday digit
  have hwd := wd_fact (w - 1).toNat (by omega)
  have hww : (((w - 1).toNat : Nat) : Int) + 1 = w := by omega
  rw [hww] at hwd
  obtain ⟨hpw, hlen1, hdig1⟩ := hwd
  obtain ⟨d, hd⟩ := List.length_eq_one.mp hlen1
  rw [hd] at hdig1
  have hdigd : d.isDigit = true := by simpa using hdig1
  -- hour digits
  have e1 : (((m / 60).toNat : Nat) : Int) = Int.tdiv m 60 := by rw [hdiv]; omega
  have hp := pad2_fact (m / 60).toNat (by omega)
  rw [e1] at hp
  obtain ⟨hlen2, hdig2, hatoi2⟩ := hp
  obtain ⟨p1, p2, hpp⟩ := List.length_eq_two.mp hlen2
  rw [hpp] at hdig2 hatoi2
  have hdp1 : p1.isDigit = true := by have := hdig2; simp [List.all] at this; exact this.1
  have hdp2 : p2.isDigit = true := by have := hdig2; simp [List.all] at this; exact this.2
  -- minute digits
  have e2 : (((m % 60).toNat : Nat) : Int) = Int.tmod m 60 := by rw [hmod]; omega
  have hq := pad2_fact (m % 60).toNat (by omega)
  rw [e2] at hq
  obtain ⟨hlen3, hdig3, hatoi3⟩ := hq
  obtain ⟨q1, q2, hqq⟩ := List.length_eq_two.mp hlen3
  rw [hqq] at hdig3 hatoi3
  have hdq1 : q1.isDigit = true := by have := hdig3; simp [List.all] at this; exact this.1
  have hdq2 : q2.isDigit = true := by have := hdig3; simp [List.all] at this; exact this.2
  -- arithmetic facts
  have harith : Int.tdiv m 60 * 60 + Int.tmod m 60 = m := by rw [hdiv, hmod]; omega
  have hh0 : ¬(Int.tdiv m 60 < 0 ∨ 24 < Int.tdiv m 60) := by rw [hdiv]; omega
  have hmi0 : ¬(Int.tmod m 60 < 0 ∨ 59 < Int.tmod m 60) := by rw [hmod]; omega
  have h24 : ¬(Int.tdiv m 60 = 24 ∧ Int.tmod m 60 ≠ 0) := by rw [hdiv, hmod]; omega
  -- the rendered string
  have hlist : timeInWeekChars ⟨w, m⟩ = ['W', d, 'T', p1, p2, ':', q1, q2, ':', '0', '0'] := by
    simp only [timeInWeekChars, hd, hpp, hqq]
    rfl
  refine ⟨?_, ?_, ?_⟩
  · rw [hlist]
    simp only [parseTimeInWeek, matchTimeInWeekRe]
    rw [if_neg (by simp)]
    rw [if_pos (show (d.isDigit && p1.isDigit && p2.isDigit && q1.isDigit && q2.isDigit
      && '0'.isDigit && '0'.isDigit) = true by simp [hdigd, hdp1, hdp2, hdq1, hdq2])]
    simp only []
    rw [show parseWeekDay [d] = w from hd ▸ hpw]
    rw [if_neg (by omega)]
    simp only [ParseMinutesSinceMidnight, hatoi2, hatoi3]
    rw [if_neg hh0, if_neg hmi0, if_neg h24, harith]
  · rw [hlist]
    intro hmem
    simp only [List.mem_cons, List.not_mem_nil, or_false] at hmem
    rcases hmem with h|h|h|h|h|h|h|h|h|h|h
    all_goals first
      | exact absurd h (by decide)
      | exact absurd h.symm (isDigit_ne hdigd).1
      | exact absurd h.symm (isDigit_ne hdp1).1
      | exact absurd h.symm (isDigit_ne hdp2).1
      | exact absurd h.symm (isDigit_ne hdq1).1
      | exact absurd h.symm (isDigit_ne hdq2).1
  · rw [hlist]
    intro hmem
    simp only [List.mem_cons, List.not_mem_nil, or_false] at hmem
    rcases hmem with h|h|h|h|h|h|h|h|h|h|h
    all_goals first
      | exact absurd h (by decide)
      | exact absurd h.symm (isDigit_ne hdigd).2
      | exact absurd h.symm (isDigit_ne hdp1).2
      | exact absurd h.symm (isDigit_ne hdp2).2
      | exact absurd h.symm (isDigit_ne hdq1).2
      | exact absurd h.symm (isDigit_ne hdq2).2

theorem beq_slash_false {x : Char} (h : x ≠ '/') : (x == '/') = false := by
  simpa using h

theorem parse_seg (oh : OpeningHours) (h : ValidOH oh) :
    ∃ a b, List.splitOn '/' oh.String = [a, b] ∧
      parseTimeInWeek a = .ok oh.Open ∧ parseTimeInWeek b = .ok oh.Close ∧
      oh.String ≠ [] ∧ ',' ∉ oh.String := by
  obtain ⟨op, cl⟩ := oh
  obtain ⟨h1, h2⟩ := h
  cases op with
  | none =>
    cases cl with
    | none => exact ⟨[], [], by decide, rfl, rfl, by decide, by decide⟩
    | some c =>
      obtain ⟨hc1, hc2, hc3, hc4⟩ := h2
      obtain ⟨hparse, hslash, hcomma⟩ := tiw_roundtrip c.Weekday c.MinutesSinceMidnight hc1 hc2 hc3 hc4
      refine ⟨[], timeInWeekChars c, ?_, rfl, ?_, by simp [OpeningHours.String], ?_⟩
      · show List.splitOn '/' (([] : List Char) ++ '/' :: timeInWeekChars c) = _
        rw [List.splitOn, List.splitOnP_first _ _ (by simp) '/' (by simp)]
        rw [List.splitOnP_eq_single]
        intro x hx
        simp only [beq_iff_eq]
        exact fun e => hslash (e ▸ hx)
      · exact hparse
      · show ',' ∉ ([] : List Char) ++ '/' :: timeInWeekChars c
        simp only [List.nil_append, List.mem_cons]
        rintro (e | e)
        · exact absurd e (by decide)
        · exact hcomma e
  | some o =>
    obtain ⟨ho1, ho2, ho3, ho4⟩ := h1
    obtain ⟨hparseo, hslasho, hcommao⟩ := tiw_roundtrip o.Weekday o.MinutesSinceMidnight ho1 ho2 ho3 ho4
    cases cl with
    | none =>
      refine ⟨timeInWeekChars o, [], ?_, hparseo, rfl, by simp [OpeningHours.String], ?_⟩
      · show List.splitOn '/' (timeInWeekChars o ++ '/' :: ([] : List Char)) = _
        rw [List.splitOn, List.splitOnP_first _ _ ?_ '/' (by simp)]
        · rfl
        · intro x hx
          simp only [beq_iff_eq]
          exact fun e => hslasho (e ▸ hx)
      · show ',' ∉ timeInWeekChars o ++ '/' :: ([] : List Char)
        simp only [List.mem_append, List.mem_cons, List.not_mem_nil, or_false]
        rintro (e | e)
        · exact hcommao e
        · exact absurd e (by decide)
    | some c =>
      obtain ⟨hc1, hc2, hc3, hc4⟩ := h2
      obtain ⟨hparsec, hslashc, hcommac⟩ := tiw_roundtrip c.Weekday c.MinutesSinceMidnight hc1 hc2 hc3 hc4
      refine ⟨timeInWeekChars o, timeInWeekChars c, ?_, hparseo, hparsec, by simp [OpeningHours.String], ?_⟩
      · show List.splitOn '/' (timeInWeekChars o ++ '/' :: timeInWeekChars c) = _
        rw [List.splitOn, List.splitOnP_first _ _ ?_ '/' (by simp)]
        · rw [List.splitOnP_eq_single]
          intro x hx
          simp only [beq_iff_eq]
          exact fun e => hslashc (e ▸ hx)
        · intro x hx
          simp only [beq_iff_eq]
          exact fun e => hslasho (e ▸ hx)
      · show ',' ∉ timeInWeekChars o ++ '/' :: timeInWeekChars c
        simp only [List.mem_append, List.mem_cons]
        rintro (e | e | e)
        · exact hcommao e
        · exact absurd e (by decide)
        · exact hcommac e

theorem parseSegs_map (ohs : List OpeningHours) (h : ValidSeq ohs) :
    parseSegs (ohs.map OpeningHours.String) = .ok ohs := by
  induction ohs with
  | nil => rfl
  | cons oh rest ih =>
    obtain ⟨a, b, hsplit, hpa, hpb, hne, -⟩ := parse_seg oh (h oh (by simp))
    have ihr : parseSegs (rest.map OpeningHours.String) = .ok rest :=
      ih (fun x hx => h x (by simp [hx]))
    simp only [List.map_cons, parseSegs, if_neg hne, hsplit, hpa, hpb, ihr]
    obtain ⟨op, cl⟩ := oh
    rfl

theorem parse_format (ohs : List OpeningHours) (h : ValidSeq ohs) :
    ParseOpeningHours (OpeningHoursSliceToString ohs) = .ok ohs := by
  cases ohs with
  | nil => rfl
  | cons oh rest =>
    have hsplit : List.splitOn ',' (OpeningHoursSliceToString (oh :: rest)) =
        (oh :: rest).map OpeningHours.String := by
      apply List.splitOn_intercalate
      · intro l hl
        simp only [List.mem_map] at hl
        obtain ⟨x, hx, rfl⟩ := hl
        obtain ⟨-, -, -, -, -, -, hcomma⟩ := parse_seg x (h x hx)
        exact hcomma
      · simp
    show parseSegs (List.splitOn ',' (OpeningHoursSliceToString (oh :: rest))) = _
    rw [hsplit]
    exact parseSegs_map _ h

theorem setPreviousDay_bounds (w : Int) (h1 : 1 ≤ w) (h7 : w ≤ 7) :
    1 ≤ setPreviousDay w ∧ setPreviousDay w ≤ 7 := by
  unfold setPreviousDay; split <;> omega

theorem walk_eq_betweenDays (a b : Int) (ha1 : 1 ≤ a) (ha2 : a ≤ 7)
    (hb1 : 1 ≤ b) (hb2 : b ≤ 7) (hne : a ≠ b) :
    walk 7 (setNextDay a) b = some (betweenDays a b) ∧ (betweenDays a b).length ≤ 5 := by
  interval_cases a <;> interval_cases b <;> revert hne <;> decide

theorem normalizeCloseHR_weekday (c : TimeInWeek) (h1 : 1 ≤ c.Weekday) (h7 : c.Weekday ≤ 7) :
    1 ≤ (normalizeCloseHR c).Weekday ∧ (normalizeCloseHR c).Weekday ≤ 7 := by
  unfold normalizeCloseHR; split
  · exact setPreviousDay_bounds _ h1 h7
  · exact ⟨h1, h7⟩

theorem normalizeCloseOCPI_weekday (c : TimeInWeek) (h1 : 1 ≤ c.Weekday) (h7 : c.Weekday ≤ 7) :
    1 ≤ (normalizeCloseOCPI c).Weekday ∧ (normalizeCloseOCPI c).Weekday ≤ 7 := by
  unfold normalizeCloseOCPI; split
  · exact setPreviousDay_bounds _ h1 h7
  · split
    · exact ⟨h1, h7⟩
    · exact ⟨h1, h7⟩

theorem expandIntervalHR_eq (o c : TimeInWeek) (heq : o.Weekday = (normalizeCloseHR c).Weekday) :
    expandIntervalHR o c = some ([(getWeekDay o.Weekday,
      ⟨minutesSinceMidnightToTime o.MinutesSinceMidnight,
        minutesSinceMidnightToTime (normalizeCloseHR c).MinutesSinceMidnight⟩)],
      o, normalizeCloseHR c) := by
  simp only [expandIntervalHR]
  rw [if_pos heq]

theorem expandIntervalHR_ne (o c : TimeInWeek)
    (ho1 : 1 ≤ o.Weekday) (ho7 : o.Weekday ≤ 7)
    (hc1 : 1 ≤ (normalizeCloseHR c).Weekday) (hc7 : (normalizeCloseHR c).Weekday ≤ 7)
    (hne : o.Weekday ≠ (normalizeCloseHR c).Weekday) :
    expandIntervalHR o c = some (
      (getWeekDay o.Weekday,
        ⟨minutesSinceMidnightToTime o.MinutesSinceMidnight, chars "24:00"⟩) ::
      ((betweenDays o.Weekday (normalizeCloseHR c).Weekday).map
        (fun w => (getWeekDay w, ⟨chars "00:00", chars "24:00"⟩)) ++
       [(getWeekDay (normalizeCloseHR c).Weekday,
         ⟨chars "00:00", minutesSinceMidnightToTime (normalizeCloseHR c).MinutesSinceMidnight⟩)]),
      ⟨(normalizeCloseHR c).Weekday, o.MinutesSinceMidnight⟩, normalizeCloseHR c) := by
  have hw := (walk_eq_betweenDays o.Weekday (normalizeCloseHR c).Weekday ho1 ho7 hc1 hc7 hne).1
  simp only [expandIntervalHR]
  rw [if_neg hne, hw]

theorem expandIntervalOCPI_eq (o c : TimeInWeek) (heq : o.Weekday = (normalizeCloseOCPI c).Weekday) :
    expandIntervalOCPI o c = some ([⟨o.Weekday,
      minutesSinceMidnightToTime o.MinutesSinceMidnight,
      minutesSinceMidnightToTime (normalizeCloseOCPI c).MinutesSinceMidnight⟩],
      o, normalizeCloseOCPI c) := by
  simp only [expandIntervalOCPI]
  rw [if_pos heq]

theorem expandIntervalOCPI_ne (o c : TimeInWeek)
    (ho1 : 1 ≤ o.Weekday) (ho7 : o.Weekday ≤ 7)
    (hc1 : 1 ≤ (normalizeCloseOCPI c).Weekday) (hc7 : (normalizeCloseOCPI c).Weekday ≤ 7)
    (hne : o.Weekday ≠ (normalizeCloseOCPI c).Weekday) :
    expandIntervalOCPI o c = some (
      ⟨o.Weekday, minutesSinceMidnightToTime o.MinutesSinceMidnight, chars "00:00"⟩ ::
      ((betweenDays o.Weekday (normalizeCloseOCPI c).Weekday).map
        (fun w => ⟨w, chars "00:00", chars "00:00"⟩) ++
       [⟨(normalizeCloseOCPI c).Weekday, chars "00:00",
         minutesSinceMidnightToTime (normalizeCloseOCPI c).MinutesSinceMidnight⟩]),
      ⟨(normalizeCloseOCPI c).Weekday, o.MinutesSinceMidnight⟩, normalizeCloseOCPI c) := by
  have hw := (walk_eq_betweenDays o.Weekday (normalizeCloseOCPI c).Weekday ho1 ho7 hc1 hc7 hne).1
  simp only [expandIntervalOCPI]
  rw [if_neg hne, hw]

theorem expandIntervalHR_some (o c : TimeInWeek)
    (ho1 : 1 ≤ o.Weekday) (ho7 : o.Weekday ≤ 7) (hc1 : 1 ≤ c.Weekday) (hc7 : c.Weekday ≤ 7) :
    ∃ es o2 c2, expandIntervalHR o c = some (es, o2, c2) ∧ es.length ≤ 7 := by
  obtain ⟨hn1, hn7⟩ := normalizeCloseHR_weekday c hc1 hc7
  by_cases heq : o.Weekday = (normalizeCloseHR c).Weekday
  · exact ⟨_, _, _, expandIntervalHR_eq o c heq, by simp⟩
  · refine ⟨_, _, _, expandIntervalHR_ne o c ho1 ho7 hn1 hn7 heq, ?_⟩
    have hlen := (walk_eq_betweenDays o.Weekday (normalizeCloseHR c).Weekday ho1 ho7 hn1 hn7 heq).2
    simp only [List.length_cons, List.length_append, List.length_map, List.length_singleton, List.length_nil]
    omega

theorem expandIntervalOCPI_some (o c : TimeInWeek)
    (ho1 : 1 ≤ o.Weekday) (ho7 : o.Weekday ≤ 7) (hc1 : 1 ≤ c.Weekday) (hc7 : c.Weekday ≤ 7) :
    ∃ es o2 c2, expandIntervalOCPI o c = some (es, o2, c2) ∧ es.length ≤ 7 := by
  obtain ⟨hn1, hn7⟩ := normalizeCloseOCPI_weekday c hc1 hc7
  by_cases heq : o.Weekday = (normalizeCloseOCPI c).Weekday
  · exact ⟨_, _, _, expandIntervalOCPI_eq o c heq, by simp⟩
  · refine ⟨_, _, _, expandIntervalOCPI_ne o c ho1 ho7 hn1 hn7 heq, ?_⟩
    have hlen := (walk_eq_betweenDays o.Weekday (normalizeCloseOCPI c).Weekday ho1 ho7 hn1 hn7 heq).2
    simp only [List.length_cons, List.length_append, List.length_map, List.length_singleton, List.length_nil]
    omega

theorem is247Entry_iff (oh : OpeningHours) : is247Entry oh = true ↔ oh = TwentyFourSevenOH := by
  obtain ⟨op, cl⟩ := oh
  cases op with
  | none => simp [is247Entry, TwentyFourSevenOH]
  | some o =>
    cases cl with
    | none => simp [is247Entry, TwentyFourSevenOH]
    | some c =>
      obtain ⟨ow, om⟩ := o
      obtain ⟨cw, cm⟩ := c
      simp only [is247Entry, Bool.and_eq_true, beq_iff_eq, TwentyFourSevenOH,
        OpeningHours.mk.injEq, Option.some.injEq, TimeInWeek.mk.injEq]
      tauto

theorem isTwentyFourSeven_iff (ohs : List OpeningHours) :
    isTwentyFourSeven ohs = true ↔ (ohs ≠ [] ∧ ∀ oh ∈ ohs, oh = TwentyFourSevenOH) := by
  unfold isTwentyFourSeven
  split
  · simp [*]
  · simp only [List.all_eq_true, is247Entry_iff]
    tauto

theorem runOCPI_some (ohs : List OpeningHours) (h : ValidBothSeq ohs) :
    ∃ es fin, runOCPI ohs = some (es, fin) := by
  induction ohs with
  | nil => exact ⟨[], [], rfl⟩
  | cons oh rest ih =>
    obtain ⟨hv, hop, hcl⟩ := h oh (by simp)
    obtain ⟨o, ho⟩ := Option.ne_none_iff_exists'.mp hop
    obtain ⟨c, hc⟩ := Option.ne_none_iff_exists'.mp hcl
    have hvo : ValidTIW o := by have := hv.1; rw [ho] at this; exact this
    have hvc : ValidTIW c := by have := hv.2; rw [hc] at this; exact this
    obtain ⟨es, o2, c2, hexp, -⟩ :=
      expandIntervalOCPI_some o c hvo.1 hvo.2.1 hvc.1 hvc.2.1
    obtain ⟨esr, finr, hrun⟩ := ih (fun x hx => h x (by simp [hx]))
    refine ⟨es ++ esr, ⟨some o2, some c2⟩ :: finr, ?_⟩
    simp only [runOCPI, ho, hc, hexp, hrun]

theorem runHR_some (ohs : List OpeningHours) (h : ValidBothSeq ohs) :
    ∃ es fin, runHR ohs = some (es, fin) := by
  induction ohs with
  | nil => exact ⟨[], [], rfl⟩
  | cons oh rest ih =>
    obtain ⟨hv, hop, hcl⟩ := h oh (by simp)
    obtain ⟨o, ho⟩ := Option.ne_none_iff_exists'.mp hop
    obtain ⟨c, hc⟩ := Option.ne_none_iff_exists'.mp hcl
    have hvo : ValidTIW o := by have := hv.1; rw [ho] at this; exact this
    have hvc : ValidTIW c := by have := hv.2; rw [hc] at this; exact this
    obtain ⟨es, o2, c2, hexp, -⟩ :=
      expandIntervalHR_some o c hvo.1 hvo.2.1 hvc.1 hvc.2.1
    obtain ⟨esr, finr, hrun⟩ := ih (fun x hx => h x (by simp [hx]))
    refine ⟨es ++ esr, ⟨some o2, some c2⟩ :: finr, ?_⟩
    simp only [runHR, ho, hc, hexp, hrun]

theorem hrLookup_not_mem (es : List (List Char × TimeRange)) (k : List Char)
    (h : k ∉ es.map Prod.fst) : hrLookup es k = [] := by
  unfold hrLookup
  rw [List.filter_eq_nil_iff.mpr, List.map_nil]
  intro e he
  simp only [decide_eq_true_eq]
  intro hek
  exact h (List.mem_map.mpr ⟨e, he, hek⟩)

theorem walk_isSome (a b : Int) (ha1 : 1 ≤ a) (ha2 : a ≤ 7) (hb1 : 1 ≤ b) (hb2 : b ≤ 7) :
    (walk 7 (setNextDay a) b).isSome = true := by
  interval_cases a <;> interval_cases b <;> decide

/-- Claim C10: with both weekdays in 1..7 the forward wrap-around day loops of
day expansion and of the OCPI projection terminate (the fuel-7 walk completes),
emit at most 7 day entries per interval, and the cyclic successor reaches every
target weekday in 1..7. -/
theorem day_loop_terminates (o c : TimeInWeek)
    (ho1 : 1 ≤ o.Weekday) (ho7 : o.Weekday ≤ 7) (hc1 : 1 ≤ c.Weekday) (hc7 : c.Weekday ≤ 7) :
    (∃ es o2 c2, expandIntervalHR o c = some (es, o2, c2) ∧ es.length ≤ 7) ∧
    (∃ es o2 c2, expandIntervalOCPI o c = some (es, o2, c2) ∧ es.length ≤ 7) ∧
    (∀ target : Int, 1 ≤ target → target ≤ 7 →
      (walk 7 (setNextDay o.Weekday) target).isSome = true) :=
  ⟨expandIntervalHR_some o c ho1 ho7 hc1 hc7,
   expandIntervalOCPI_some o c ho1 ho7 hc1 hc7,
   fun target ht1 ht7 => walk_isSome o.Weekday target ho1 ho7 ht1 ht7⟩

theorem day_loop_terminates_witness :
    (∃ es o2 c2, expandIntervalHR ⟨1, 480⟩ ⟨2, 960⟩ = some (es, o2, c2) ∧ es.length ≤ 7) ∧
    (∃ es o2 c2, expandIntervalOCPI ⟨1, 480⟩ ⟨2, 960⟩ = some (es, o2, c2) ∧ es.length ≤ 7) ∧
    (∀ target : Int, 1 ≤ target → target ≤ 7 →
      (walk 7 (setNextDay (⟨1, 480⟩ : TimeInWeek).Weekday) target).isSome = true) :=
  day_loop_terminates ⟨1, 480⟩ ⟨2, 960⟩ (by decide) (by decide) (by decide) (by decide)

/-- Claim C2: a multi-day interval (post-normalization open weekday different
from close weekday) expands to the open-day range up to 24:00, full days for
every weekday strictly between walking forward cyclically, and a 00:00-to-close
range on the close weekday; in particular W1T08:00:00/W2T16:00:00 yields
monday 08:00-24:00 and tuesday 00:00-16:00 and nothing else. -/
theorem expansion_multiday_shape :
    (∀ o c : TimeInWeek, 1 ≤ o.Weekday → o.Weekday ≤ 7 → 1 ≤ c.Weekday → c.Weekday ≤ 7 →
      o.Weekday ≠ (normalizeCloseHR c).Weekday →
      expandIntervalHR o c = some (
        (getWeekDay o.Weekday,
          ⟨minutesSinceMidnightToTime o.MinutesSinceMidnight, chars "24:00"⟩) ::
        ((betweenDays o.Weekday (normalizeCloseHR c).Weekday).map
          (fun w => (getWeekDay w, ⟨chars "00:00", chars "24:00"⟩)) ++
         [(getWeekDay (normalizeCloseHR c).Weekday,
           ⟨chars "00:00", minutesSinceMidnightToTime (normalizeCloseHR c).MinutesSinceMidnight⟩)]),
        ⟨(normalizeCloseHR c).Weekday, o.MinutesSinceMidnight⟩, normalizeCloseHR c)) ∧
    GetHumanReadableTimes [⟨some ⟨1, 480⟩, some ⟨2, 960⟩⟩] =
      some ([(chars "monday", ⟨chars "08:00", chars "24:00"⟩),
             (chars "tuesday", ⟨chars "00:00", chars "16:00"⟩)],
            [⟨some ⟨2, 480⟩, some ⟨2, 960⟩⟩]) ∧
    hrLookup [(chars "monday", ⟨chars "08:00", chars "24:00"⟩),
              (chars "tuesday", ⟨chars "00:00", chars "16:00"⟩)] (chars "monday") =
      [⟨chars "08:00", chars "24:00"⟩] ∧
    hrLookup [(chars "monday", ⟨chars "08:00", chars "24:00"⟩),
              (chars "tuesday", ⟨chars "00:00", chars "16:00"⟩)] (chars "tuesday") =
      [⟨chars "00:00", chars "16:00"⟩] ∧
    ∀ k, k ≠ chars "monday" → k ≠ chars "tuesday" →
      hrLookup [(chars "monday", ⟨chars "08:00", chars "24:00"⟩),
                (chars "tuesday", ⟨chars "00:00", chars "16:00"⟩)] k = [] :=
  ⟨fun o c ho1 ho7 hc1 hc7 hne =>
    expandIntervalHR_ne o c ho1 ho7
      (normalizeCloseHR_weekday c hc1 hc7).1 (normalizeCloseHR_weekday c hc1 hc7).2 hne,
   by decide, by decide, by decide,
   fun k h1 h2 => hrLookup_not_mem _ _ (by simp [h1, h2])⟩

theorem expansion_multiday_shape_witness :
    expandIntervalHR ⟨1, 480⟩ ⟨2, 960⟩ = some (
      (getWeekDay (1 : Int), ⟨minutesSinceMidnightToTime 480, chars "24:00"⟩) ::
      ((betweenDays 1 (normalizeCloseHR ⟨2, 960⟩).Weekday).map
        (fun w => (getWeekDay w, ⟨chars "00:00", chars "24:00"⟩)) ++
       [(getWeekDay (normalizeCloseHR ⟨2, 960⟩).Weekday,
         ⟨chars "00:00", minutesSinceMidnightToTime (normalizeCloseHR ⟨2, 960⟩).MinutesSinceMidnight⟩)]),
      ⟨(normalizeCloseHR ⟨2, 960⟩).Weekday, 480⟩, normalizeCloseHR ⟨2, 960⟩) :=
  expansion_multiday_shape.1 ⟨1, 480⟩ ⟨2, 960⟩
    (by decide) (by decide) (by decide) (by decide) (by decide)

/-- Claim C6: in day expansion a close at minute 0 behaves exactly like
24:00 of the previous weekday, and W7T00:00:00/W1T00:00:00 expands to
sunday 00:00-24:00 only. -/
theorem hr_midnight_close_normalization :
    (∀ (o : TimeInWeek) (cw : Int),
      expandIntervalHR o ⟨cw, 0⟩ = expandIntervalHR o ⟨setPreviousDay cw, 1440⟩) ∧
    GetHumanReadableTimes [⟨some ⟨7, 0⟩, some ⟨1, 0⟩⟩] =
      some ([(chars "sunday", ⟨chars "00:00", chars "24:00"⟩)],
            [⟨some ⟨7, 0⟩, some ⟨7, 1440⟩⟩]) ∧
    hrLookup [(chars "sunday", ⟨chars "00:00", chars "24:00"⟩)] (chars "sunday") =
      [⟨chars "00:00", chars "24:00"⟩] ∧
    ∀ k, k ≠ chars "sunday" →
      hrLookup [(chars "sunday", ⟨chars "00:00", chars "24:00"⟩)] k = [] :=
  ⟨fun o cw => rfl, by decide, by decide,
   fun k h1 => hrLookup_not_mem _ _ (by simp [h1])⟩

theorem hr_midnight_close_normalization_witness :
    expandIntervalHR ⟨7, 300⟩ ⟨1, 0⟩ = expandIntervalHR ⟨7, 300⟩ ⟨setPreviousDay 1, 1440⟩ ∧
    hrLookup [(chars "sunday", ⟨chars "00:00", chars "24:00"⟩)] (chars "friday") = [] :=
  ⟨hr_midnight_close_normalization.1 ⟨7, 300⟩ 1,
   hr_midnight_close_normalization.2.2.2 (chars "friday") (by decide)⟩

/-- Claim C3 is violated by the code: the loop variable of
GetHumanReadableTimes / GetOCPIOpeningTimes shares the caller's TimeInWeek
cells through the Open/Close pointers, so the wrap-around normalization writes
through to the caller.  Expanding W1T08:00:00/W2T16:00:00 leaves the caller's
open cell at weekday 2 instead of 1, and even the package-level
TwentyFourSevenOH value gets its open weekday rewritten to 7 by a
GetHumanReadableTimes call. -/
theorem expansion_mutates_caller :
    GetHumanReadableTimes [⟨some ⟨1, 480⟩, some ⟨2, 960⟩⟩] =
      some ([(chars "monday", ⟨chars "08:00", chars "24:00"⟩),
             (chars "tuesday", ⟨chars "00:00", chars "16:00"⟩)],
            [⟨some ⟨2, 480⟩, some ⟨2, 960⟩⟩]) ∧
    GetOCPIOpeningTimes [⟨some ⟨1, 480⟩, some ⟨2, 960⟩⟩] =
      some (⟨false, some [⟨1, chars "08:00", chars "00:00"⟩,
                          ⟨2, chars "00:00", chars "16:00"⟩]⟩,
            [⟨some ⟨2, 480⟩, some ⟨2, 960⟩⟩]) ∧
    ((⟨2, 480⟩ : TimeInWeek) ≠ ⟨1, 480⟩) ∧
    GetHumanReadableTimes [TwentyFourSevenOH] =
      some ([(chars "monday", ⟨chars "00:00", chars "24:00"⟩),
             (chars "tuesday", ⟨chars "00:00", chars "24:00"⟩),
             (chars "wednesday", ⟨chars "00:00", chars "24:00"⟩),
             (chars "thursday", ⟨chars "00:00", chars "24:00"⟩),
             (chars "friday", ⟨chars "00:00", chars "24:00"⟩),
             (chars "saturday", ⟨chars "00:00", chars "24:00"⟩),
             (chars "sunday", ⟨chars "00:00", chars "24:00"⟩)],
            [⟨some ⟨7, 0⟩, some ⟨7, 1440⟩⟩]) ∧
    (⟨some ⟨7, 0⟩, some ⟨7, 1440⟩⟩ : OpeningHours) ≠ TwentyFourSevenOH := by
  refine ⟨by decide, by decide, by decide, by decide, by decide⟩

/-- Claim C4 as stated fails: an interval with an absent endpoint makes
GetOCPIOpeningTimes dereference a nil pointer (modelled as `none`), so no
`twentyFourSeven=false` result is returned for it. -/
theorem ocpi_panics_on_absent_endpoint :
    GetOCPIOpeningTimes [⟨none, none⟩] = none ∧
    ¬ ∃ r fin, GetOCPIOpeningTimes [⟨none, none⟩] = some (r, fin) ∧
        r.TwentyFourSeven = false := by
  refine ⟨rfl, ?_⟩
  rintro ⟨r, fin, hr, -⟩
  rw [show GetOCPIOpeningTimes [⟨none, none⟩] = none from rfl] at hr
  exact Option.noConfusion hr

/-- Claim C4, amended: for sequences whose intervals all have both endpoints
present (and valid), the OCPI projection returns a result whose
twentyFourSeven flag is true exactly for a non-empty all-(1,0)-to-(7,1440)
sequence, with no regular-hours list in that case; with an absent endpoint
the projection crashes instead of returning false. -/
theorem ocpi_twentyFourSeven_amended (ohs : List OpeningHours) (h : ValidBothSeq ohs) :
    ∃ r fin, GetOCPIOpeningTimes ohs = some (r, fin) ∧
      r.TwentyFourSeven = isTwentyFourSeven ohs ∧
      (isTwentyFourSeven ohs = true ↔ (ohs ≠ [] ∧ ∀ oh ∈ ohs, oh = TwentyFourSevenOH)) ∧
      (r.TwentyFourSeven = true → r.RegularHours = none) := by
  by_cases h247 : isTwentyFourSeven ohs = true
  · refine ⟨⟨true, none⟩, ohs, ?_, by simp [h247], isTwentyFourSeven_iff ohs, by simp⟩
    simp only [GetOCPIOpeningTimes, if_pos h247]
  · obtain ⟨es, fin, hrun⟩ := runOCPI_some ohs h
    have h247f : isTwentyFourSeven ohs = false := by simpa using h247
    by_cases hes : es = []
    · refine ⟨⟨false, none⟩, fin, ?_, by simp [h247f], isTwentyFourSeven_iff ohs, by simp⟩
      simp only [GetOCPIOpeningTimes, h247f, Bool.false_eq_true, if_false, hrun, if_pos hes]
    · refine ⟨⟨false, some es⟩, fin, ?_, by simp [h247f], isTwentyFourSeven_iff ohs, by simp⟩
      simp only [GetOCPIOpeningTimes, h247f, Bool.false_eq_true, if_false, hrun, if_neg hes]

theorem ocpi_twentyFourSeven_amended_witness :
    ∃ r fin, GetOCPIOpeningTimes [TwentyFourSevenOH, TwentyFourSevenOH] = some (r, fin) ∧
      r.TwentyFourSeven = isTwentyFourSeven [TwentyFourSevenOH, TwentyFourSevenOH] ∧
      (isTwentyFourSeven [TwentyFourSevenOH, TwentyFourSevenOH] = true ↔
        ([TwentyFourSevenOH, TwentyFourSevenOH] ≠ [] ∧
         ∀ oh ∈ [TwentyFourSevenOH, TwentyFourSevenOH], oh = TwentyFourSevenOH)) ∧
      (r.TwentyFourSeven = true → r.RegularHours = none) :=
  ocpi_twentyFourSeven_amended [TwentyFourSevenOH, TwentyFourSevenOH] (by decide)

/-- Claim C5: in the OCPI projection a close at minute 1440 is rendered as
periodEnd "00:00" on the unshifted close weekday, while a close at minute 0
first shifts the close weekday back by one (wrapping 1 to 7). -/
theorem ocpi_midnight_close_conventions (o c : TimeInWeek)
    (ho1 : 1 ≤ o.Weekday) (ho7 : o.Weekday ≤ 7) (hc1 : 1 ≤ c.Weekday) (hc7 : c.Weekday ≤ 7) :
    (c.MinutesSinceMidnight = 1440 →
      ∃ es o2 c2 pb, expandIntervalOCPI o c = some (es, o2, c2) ∧
        es.getLast? = some ⟨c.Weekday, pb, chars "00:00"⟩) ∧
    (c.MinutesSinceMidnight = 0 →
      ∃ es o2 c2 pb, expandIntervalOCPI o c = some (es, o2, c2) ∧
        es.getLast? = some ⟨setPreviousDay c.Weekday, pb, chars "00:00"⟩) := by
  have hz : minutesSinceMidnightToTime 0 = chars "00:00" := by decide
  constructor
  · intro hmin
    have hnorm : normalizeCloseOCPI c = ⟨c.Weekday, 0⟩ := by
      simp [normalizeCloseOCPI, hmin]
    by_cases heq : o.Weekday = (normalizeCloseOCPI c).Weekday
    · refine ⟨_, _, _, minutesSinceMidnightToTime o.MinutesSinceMidnight,
        expandIntervalOCPI_eq o c heq, ?_⟩
      rw [List.getLast?_singleton]
      rw [heq, hnorm]
      simp [hz]
    · obtain ⟨hn1, hn7⟩ := normalizeCloseOCPI_weekday c hc1 hc7
      refine ⟨_, _, _, chars "00:00",
        expandIntervalOCPI_ne o c ho1 ho7 hn1 hn7 heq, ?_⟩
      rw [show (⟨o.Weekday, minutesSinceMidnightToTime o.MinutesSinceMidnight, chars "00:00"⟩ ::
        ((betweenDays o.Weekday (normalizeCloseOCPI c).Weekday).map
          (fun w => (⟨w, chars "00:00", chars "00:00"⟩ : OCPIRegularHours)) ++
         [⟨(normalizeCloseOCPI c).Weekday, chars "00:00",
           minutesSinceMidnightToTime (normalizeCloseOCPI c).MinutesSinceMidnight⟩]) :
          List OCPIRegularHours) =
        (⟨o.Weekday, minutesSinceMidnightToTime o.MinutesSinceMidnight, chars "00:00"⟩ ::
         (betweenDays o.Weekday (normalizeCloseOCPI c).Weekday).map
           (fun w => (⟨w, chars "00:00", chars "00:00"⟩ : OCPIRegularHours))) ++
        [⟨(normalizeCloseOCPI c).Weekday, chars "00:00",
          minutesSinceMidnightToTime (normalizeCloseOCPI c).MinutesSinceMidnight⟩] from by
        simp]
      rw [List.getLast?_concat, hnorm]
      simp [hz]
  · intro hmin
    have hnorm : normalizeCloseOCPI c = ⟨setPreviousDay c.Weekday, 0⟩ := by
      simp [normalizeCloseOCPI, hmin]
    by_cases heq : o.Weekday = (normalizeCloseOCPI c).Weekday
    · refine ⟨_, _, _, minutesSinceMidnightToTime o.MinutesSinceMidnight,
        expandIntervalOCPI_eq o c heq, ?_⟩
      rw [List.getLast?_singleton]
      rw [heq, hnorm]
      simp [hz]
    · obtain ⟨hn1, hn7⟩ := normalizeCloseOCPI_weekday c hc1 hc7
      refine ⟨_, _, _, chars "00:00",
        expandIntervalOCPI_ne o c ho1 ho7 hn1 hn7 heq, ?_⟩
      rw [show (⟨o.Weekday, minutesSinceMidnightToTime o.MinutesSinceMidnight, chars "00:00"⟩ ::
        ((betweenDays o.Weekday (normalizeCloseOCPI c).Weekday).map
          (fun w => (⟨w, chars "00:00", chars "00:00"⟩ : OCPIRegularHours)) ++
         [⟨(normalizeCloseOCPI c).Weekday, chars "00:00",
           minutesSinceMidnightToTime (normalizeCloseOCPI c).MinutesSinceMidnight⟩]) :
          List OCPIRegularHours) =
        (⟨o.Weekday, minutesSinceMidnightToTime o.MinutesSinceMidnight, chars "00:00"⟩ ::
         (betweenDays o.Weekday (normalizeCloseOCPI c).Weekday).map
           (fun w => (⟨w, chars "00:00", chars "00:00"⟩ : OCPIRegularHours))) ++
        [⟨(normalizeCloseOCPI c).Weekday, chars "00:00",
          minutesSinceMidnightToTime (normalizeCloseOCPI c).MinutesSinceMidnight⟩] from by
        simp]
      rw [List.getLast?_concat, hnorm]
      simp [hz]

theorem ocpi_midnight_close_conventions_witness :
    (∃ es o2 c2 pb, expandIntervalOCPI ⟨1, 0⟩ ⟨7, 1440⟩ = some (es, o2, c2) ∧
        es.getLast? = some ⟨(7 : Int), pb, chars "00:00"⟩) ∧
    (∃ es o2 c2 pb, expandIntervalOCPI ⟨6, 300⟩ ⟨1, 0⟩ = some (es, o2, c2) ∧
        es.getLast? = some ⟨setPreviousDay 1, pb, chars "00:00"⟩) :=
  ⟨(ocpi_midnight_close_conventions ⟨1, 0⟩ ⟨7, 1440⟩
      (by decide) (by decide) (by decide) (by decide)).1 rfl,
   (ocpi_midnight_close_conventions ⟨6, 300⟩ ⟨1, 0⟩
      (by decide) (by decide) (by decide) (by decide)).2 rfl⟩

/-- Claim C1: parsing the output of the formatter returns the original
sequence for every invariant-satisfying sequence, and formatting the parse
of a formatter-produced string reproduces that string. -/
theorem round_trip_parse_format (ohs : List OpeningHours) (h : ValidSeq ohs) :
    ParseOpeningHours (OpeningHoursSliceToString ohs) = .ok ohs ∧
    ∃ ohs2, ParseOpeningHours (OpeningHoursSliceToString ohs) = .ok ohs2 ∧
      OpeningHoursSliceToString ohs2 = OpeningHoursSliceToString ohs :=
  ⟨parse_format ohs h, ohs, parse_format ohs h, rfl⟩

theorem round_trip_parse_format_witness :
    ParseOpeningHours (OpeningHoursSliceToString
      [⟨some ⟨1, 480⟩, some ⟨1, 960⟩⟩, ⟨none, some ⟨7, 1440⟩⟩, ⟨none, none⟩]) =
      .ok [⟨some ⟨1, 480⟩, some ⟨1, 960⟩⟩, ⟨none, some ⟨7, 1440⟩⟩, ⟨none, none⟩] ∧
    ∃ ohs2, ParseOpeningHours (OpeningHoursSliceToString
      [⟨some ⟨1, 480⟩, some ⟨1, 960⟩⟩, ⟨none, some ⟨7, 1440⟩⟩, ⟨none, none⟩]) = .ok ohs2 ∧
      OpeningHoursSliceToString ohs2 = OpeningHoursSliceToString
        [⟨some ⟨1, 480⟩, some ⟨1, 960⟩⟩, ⟨none, some ⟨7, 1440⟩⟩, ⟨none, none⟩] :=
  round_trip_parse_format
    [⟨some ⟨1, 480⟩, some ⟨1, 960⟩⟩, ⟨none, some ⟨7, 1440⟩⟩, ⟨none, none⟩] (by decide)

/-- Claim C7: ParseMinutesSinceMidnight returns hours*60+minutes when the
hours parse into 0..24, the minutes into 0..59 and 24:00 is the only use of
hour 24; earlier checks win (hours checked first, then minutes, then the
24-with-nonzero-minutes rule), with the three error messages of the code. -/
theorem parseMinutes_characterization (v1 v2 : List Char) :
    (∀ hrs mins : Int, atoi v1 = some hrs → atoi v2 = some mins →
        0 ≤ hrs → hrs ≤ 24 → 0 ≤ mins → mins ≤ 59 → ¬(hrs = 24 ∧ mins ≠ 0) →
        ParseMinutesSinceMidnight v1 v2 = .ok (hrs * 60 + mins)) ∧
    ((atoi v1 = none ∨ ∃ hrs, atoi v1 = some hrs ∧ (hrs < 0 ∨ 24 < hrs)) →
        ParseMinutesSinceMidnight v1 v2 = .error (chars "invalid hours value")) ∧
    (∀ hrs : Int, atoi v1 = some hrs → 0 ≤ hrs → hrs ≤ 24 →
        (atoi v2 = none ∨ ∃ mins, atoi v2 = some mins ∧ (mins < 0 ∨ 59 < mins)) →
        ParseMinutesSinceMidnight v1 v2 = .error (chars "invalid minutes value")) ∧
    (∀ mins : Int, atoi v1 = some 24 → atoi v2 = some mins → 0 ≤ mins → mins ≤ 59 →
        mins ≠ 0 → ParseMinutesSinceMidnight v1 v2 = .error (chars "invalid value")) ∧
    ParseMinutesSinceMidnight (chars "25") (chars "00") = .error (chars "invalid hours value") ∧
    ParseMinutesSinceMidnight (chars "24") (chars "01") = .error (chars "invalid value") ∧
    ParseMinutesSinceMidnight (chars "24") (chars "00") = .ok 1440 := by
  refine ⟨?_, ?_, ?_, ?_, by decide, by decide, by decide⟩
  · intro hrs mins h1 h2 hb1 hb2 hb3 hb4 h24
    simp only [ParseMinutesSinceMidnight, h1, h2]
    rw [if_neg (by omega), if_neg (by omega), if_neg h24]
  · rintro (h1 | ⟨hrs, h1, hrange⟩)
    · simp only [ParseMinutesSinceMidnight, h1]
    · simp only [ParseMinutesSinceMidnight, h1]
      rw [if_pos hrange]
  · rintro hrs h1 hb1 hb2 (h2 | ⟨mins, h2, hrange⟩)
    · simp only [ParseMinutesSinceMidnight, h1, h2]
      rw [if_neg (by omega)]
    · simp only [ParseMinutesSinceMidnight, h1, h2]
      rw [if_neg (by omega), if_pos hrange]
  · intro mins h1 h2 hb1 hb2 hne
    simp only [ParseMinutesSinceMidnight, h1, h2]
    rw [if_neg (by omega), if_neg (by omega)]
    simp [hne]

theorem parseMinutes_characterization_witness :
    ParseMinutesSinceMidnight (chars "08") (chars "30") = .ok (8 * 60 + 30) :=
  (parseMinutes_characterization (chars "08") (chars "30")).1 8 30
    (by decide) (by decide) (by decide) (by decide) (by decide) (by decide) (by decide)

/-- Claim C8: Parse splits on commas, silently skips empty segments
(so the empty string parses to the empty sequence), maps the segment "/" to
one entry with both endpoints absent, rejects any other segment that does not
split on "/" into exactly two parts with the exact message naming the
segment, and an error carries no partial result (the error side of the
Except holds only the message). -/
theorem parse_segment_errors :
    ParseOpeningHours (chars "") = .ok [] ∧
    (∀ rest, parseSegs ([] :: rest) = parseSegs rest) ∧
    (∀ rest, parseSegs (chars "/" :: rest) =
      (parseSegs rest).map (fun l => ⟨none, none⟩ :: l)) ∧
    (∀ seg rest, seg ≠ [] → (List.splitOn '/' seg).length ≠ 2 →
      parseSegs (seg :: rest) =
        .error (chars "invalid opening hours string `" ++ seg ++ chars "`")) ∧
    (∀ v, ParseOpeningHours v = parseSegs (List.splitOn ',' v)) := by
  refine ⟨rfl, fun rest => rfl, fun rest => rfl, ?_, fun v => rfl⟩
  intro seg rest hseg hlen
  simp only [parseSegs, if_neg hseg]
  rcases hsplit : List.splitOn '/' seg with _ | ⟨a, _ | ⟨b, _ | ⟨c3, l⟩⟩⟩
  · rfl
  · rfl
  · exact absurd (by rw [hsplit]; simp) hlen
  · rfl

theorem parse_segment_errors_witness :
    parseSegs [chars "invalid"] =
      .error (chars "invalid opening hours string `" ++ chars "invalid" ++ chars "`") :=
  parse_segment_errors.2.2.2.1 (chars "invalid") [] (by decide) (by decide)

/-- Claim C9: ParseStringWeekdayToTimeWeekday maps, case-insensitively, the
full English weekday names and the three-letter abbreviations to 1..7 and
fails with the invalid-weekday message on everything else. -/
theorem parseWeekdayName_characterization :
    (∀ (s : List Char) (k : Int), 1 ≤ k → k ≤ 7 →
      (s.map Char.toLower = weekdayFullName k ∨ s.map Char.toLower = weekdayAbbrev k) →
      ParseStringWeekdayToTimeWeekday s = .ok k) ∧
    (∀ s : List Char,
      (∀ k : Int, 1 ≤ k → k ≤ 7 →
        s.map Char.toLower ≠ weekdayFullName k ∧ s.map Char.toLower ≠ weekdayAbbrev k) →
      ParseStringWeekdayToTimeWeekday s = .error (chars "invalid weekday: " ++ s)) := by
  constructor
  · intro s k hk1 hk7 hm
    interval_cases k <;> rcases hm with hm | hm <;>
      simp [ParseStringWeekdayToTimeWeekday, weekdayFullName, weekdayAbbrev, hm] <;> decide
  · intro s hk
    have n1 := hk 1 (by norm_num) (by norm_num)
    have n2 := hk 2 (by norm_num) (by norm_num)
    have n3 := hk 3 (by norm_num) (by norm_num)
    have n4 := hk 4 (by norm_num) (by norm_num)
    have n5 := hk 5 (by norm_num) (by norm_num)
    have n6 := hk 6 (by norm_num) (by norm_num)
    have n7 := hk 7 (by norm_num) (by norm_num)
    simp [weekdayFullName, weekdayAbbrev] at n1 n2 n3 n4 n5 n6 n7
    simp [ParseStringWeekdayToTimeWeekday, n1.1, n1.2, n2.1, n2.2, n3.1, n3.2,
      n4.1, n4.2, n5.1, n5.2, n6.1, n6.2, n7.1, n7.2]

theorem parseWeekdayName_characterization_witness :
    ParseStringWeekdayToTimeWeekday (chars "SUNDAY") = .ok 7 ∧
    ParseStringWeekdayToTimeWeekday (chars "Wed") = .ok 3 ∧
    ParseStringWeekdayToTimeWeekday (chars "xyz") =
      .error (chars "invalid weekday: " ++ chars "xyz") :=
  ⟨parseWeekdayName_characterization.1 (chars "SUNDAY") 7 (by decide) (by decide)
      (Or.inl (by decide)),
   parseWeekdayName_characterization.1 (chars "Wed") 3 (by decide) (by decide)
      (Or.inr (by decide)),
   parseWeekdayName_characterization.2 (chars "xyz")
      (fun k hk1 hk7 => by interval_cases k <;> exact ⟨by decide, by decide⟩)⟩
